import Mathlib

/-!
Verification of the tabular transformation pipeline of the earthquake
analytics dashboard (pages 1-4).  Each dataframe is modelled as a
`List Event`; timestamps are seconds (`ℤ`), numeric columns are `ℚ`.
Pandas NaN/NaT in a derived column is modelled with `Option`; rows kept
by the loader carry total (non-null) fields, mirroring the `dropna`
calls that precede every use of the table.
-/

/-- One earthquake record, after loading and `dropna`: every kept row has
non-null coordinates, depth, magnitude and timestamp
(`2_Earthquake_Mapping.py` line 147). -/
structure Event where
  latitude : ℚ
  longitude : ℚ
  depth : ℚ
  magnitude : ℚ
  time : ℤ
  province : String
  area : String
  category : String
  deriving DecidableEq

/-- Calendar day of a timestamp (models `TIME.dt.date`); floor division so
that whole days partition the time axis. -/
def dateOf (e : Event) : ℤ :=
  Int.fdiv e.time 86400

/-- Comparison used by `sort_values("TIME")`: ascending timestamp order. -/
def timeLe (a b : Event) : Prop :=
  a.time ≤ b.time

instance : DecidableRel timeLe :=
  fun a b => Int.decLe a.time b.time

instance : IsTotal Event timeLe :=
  ⟨fun a b => Int.le_total a.time b.time⟩

instance : IsTrans Event timeLe :=
  ⟨fun _ _ _ h h' => le_trans h h'⟩

/-- Output row of the sequencing step: the original row together with the
full record supplying its `NEXT_LATITUDE` / `NEXT_LONGITUDE` / `NEXT_TIME`
columns (`shift(-1)` copies those fields from the following row of the
sorted frame). -/
structure LinkedRow where
  cur : Event
  next : Event
  deriving DecidableEq

/-- `HOURS_BETWEEN` column: `(NEXT_TIME - TIME).dt.total_seconds() / 3600`
(`2_Earthquake_Mapping.py` lines 218 and 359). -/
def LinkedRow.hoursBetween (lr : LinkedRow) : ℚ :=
  ((lr.next.time - lr.cur.time : ℤ) : ℚ) / 3600

/-- Pair every row of a sorted frame with its successor; the last row has a
NaN successor after `shift(-1)` and is removed by the subsequent `dropna`,
so it produces no pair. -/
def adjacentPairs : List Event → List LinkedRow
  | a :: b :: rest => ⟨a, b⟩ :: adjacentPairs (b :: rest)
  | _ => []

/-- `create_sequential_connections` (`2_Earthquake_Mapping.py` lines
350-365): sort the region subset by `TIME`, `shift(-1)` the coordinate and
time columns into `NEXT_*`, compute `HOURS_BETWEEN`, and drop the rows with
incomplete `NEXT_*` fields (exactly the final row of the sorted subset,
since all retained input fields are non-null). -/
def create_sequential_connections (region_data : List Event) : List LinkedRow :=
  adjacentPairs (region_data.insertionSort timeLe)

/-- The module-level linkage (`2_Earthquake_Mapping.py` lines 212-221):
`sort_values("TIME")` over the whole table followed by the same
`shift(-1)` / `dropna` idiom, with no grouping. -/
def globalShiftLinks (seismic_data : List Event) : List LinkedRow :=
  adjacentPairs (seismic_data.insertionSort timeLe)

/-- The per-region loop (`2_Earthquake_Mapping.py` lines 368-372): for each
selected region, restrict the filtered table to that province, apply
`create_sequential_connections`, and concatenate the results. -/
def sequential_data (selected_regions : List String) (filtered_data : List Event) :
    List LinkedRow :=
  (selected_regions.map (fun region =>
    create_sequential_connections
      (filtered_data.filter (fun e => e.province == region)))).flatten

theorem adjacentPairs_mem {lr : LinkedRow} :
    ∀ {l : List Event}, lr ∈ adjacentPairs l → lr.cur ∈ l ∧ lr.next ∈ l := by
  intro l
  induction l with
  | nil => intro h; simp [adjacentPairs] at h
  | cons a t ih =>
    cases t with
    | nil => intro h; simp [adjacentPairs] at h
    | cons b rest =>
      intro h
      rw [adjacentPairs] at h
      rcases List.mem_cons.mp h with h1 | h2
      · subst h1
        exact ⟨List.mem_cons_self _ _, List.mem_cons_of_mem _ (List.mem_cons_self _ _)⟩
      · rcases ih h2 with ⟨hc, hn⟩
        exact ⟨List.mem_cons_of_mem _ hc, List.mem_cons_of_mem _ hn⟩

theorem adjacentPairs_length :
    ∀ l : List Event, (adjacentPairs l).length = l.length - 1 := by
  intro l
  induction l with
  | nil => rfl
  | cons a t ih =>
    cases t with
    | nil => rfl
    | cons b rest =>
      rw [adjacentPairs]
      simp only [List.length_cons] at *
      omega

theorem adjacentPairs_chain {R : Event → Event → Prop} {lr : LinkedRow} :
    ∀ {l : List Event}, List.Chain' R l → lr ∈ adjacentPairs l → R lr.cur lr.next := by
  intro l
  induction l with
  | nil => intro _ h; simp [adjacentPairs] at h
  | cons a t ih =>
    cases t with
    | nil => intro _ h; simp [adjacentPairs] at h
    | cons b rest =>
      intro hch h
      rw [adjacentPairs] at h
      rcases List.mem_cons.mp h with h1 | h2
      · subst h1
        exact (List.chain'_cons.mp hch).1
      · exact ih (List.chain'_cons.mp hch).2 h2

theorem mem_sortByTime {e : Event} {l : List Event} :
    e ∈ l.insertionSort timeLe ↔ e ∈ l :=
  (List.perm_insertionSort timeLe l).mem_iff

/-- Concrete events used by counterexamples and witnesses. -/
def eventA : Event :=
  ⟨10, 120, -5, 5, 0, "Batangas", "AreaA", "TECTONIC"⟩

def eventB : Event :=
  ⟨14, 121, -8, 6, 3600, "Cavite", "AreaB", "TECTONIC"⟩

def eventC : Event :=
  ⟨11, 122, -3, 4, 7200, "Batangas", "AreaA", "TECTONIC"⟩

/-- Claim C1 (counterexample): the module-level linked-event table of
`2_Earthquake_Mapping.py` lines 212-221 is built by a single ungrouped
`shift(-1)` over the time-sorted table, so a row of one province can carry
`NEXT_*` fields taken from a row of a different province: with eventA in
province Batangas at t=0 and eventB in province Cavite at t=3600, the
output links them. -/
theorem sequencer_isolation_counterexample :
    globalShiftLinks [eventA, eventB] = [⟨eventA, eventB⟩] ∧
      eventA.province ≠ eventB.province := by
  constructor
  · rfl
  · decide

/-- Claim C1 (amended): group isolation holds for the per-region sequencer
output `sequential_data` (the table actually fed to the arc layer): every
output row and the row supplying its `NEXT_*` fields belong to the same
province, and both come from the filtered input. -/
theorem sequencer_group_isolation (regions : List String) (filtered : List Event)
    (lr : LinkedRow) (h : lr ∈ sequential_data regions filtered) :
    lr.cur.province = lr.next.province ∧ lr.cur ∈ filtered ∧ lr.next ∈ filtered := by
  rcases List.mem_flatten.mp h with ⟨s, hs, hlr⟩
  rcases List.mem_map.mp hs with ⟨region, _, rfl⟩
  rcases adjacentPairs_mem hlr with ⟨hc, hn⟩
  have hc' := mem_sortByTime.mp hc
  have hn' := mem_sortByTime.mp hn
  have hcf := List.mem_filter.mp hc'
  have hnf := List.mem_filter.mp hn'
  have hcp : lr.cur.province = region := by
    have := hcf.2
    simpa using this
  have hnp : lr.next.province = region := by
    have := hnf.2
    simpa using this
  exact ⟨hcp.trans hnp.symm, hcf.1, hnf.1⟩

/-- Claim C1 (witness). -/
theorem sequencer_group_isolation_witness :
    (⟨eventA, eventC⟩ : LinkedRow) ∈ sequential_data ["Batangas"] [eventA, eventB, eventC] ∧
      eventA.province = eventC.province := by
  refine ⟨by decide, ?_⟩
  exact (sequencer_group_isolation ["Batangas"] [eventA, eventB, eventC]
    ⟨eventA, eventC⟩ (by decide)).1

/-- Claim C2: for every input table, a group with N rows (N ≥ 2) contributes
exactly N-1 rows to the linked-event output (the chronologically last row is
dropped by the `dropna` after `shift(-1)`), and a group with fewer than 2
rows contributes 0 rows. -/
theorem sequencer_completeness (group : List Event) :
    (2 ≤ group.length →
      (create_sequential_connections group).length = group.length - 1) ∧
    (group.length < 2 → (create_sequential_connections group).length = 0) := by
  have hlen : (group.insertionSort timeLe).length = group.length :=
    (List.perm_insertionSort timeLe group).length_eq
  have hadj := adjacentPairs_length (group.insertionSort timeLe)
  unfold create_sequential_connections
  omega

/-- Claim C2 (witness). -/
theorem sequencer_completeness_witness :
    (create_sequential_connections [eventA, eventB, eventC]).length = 3 - 1 ∧
      (create_sequential_connections [eventA]).length = 0 :=
  ⟨(sequencer_completeness [eventA, eventB, eventC]).1 (by decide),
   (sequencer_completeness [eventA]).2 (by decide)⟩

/-- Claim C3: every row of the sequencer output has
`next_timestamp ≥ timestamp`, a nonnegative `HOURS_BETWEEN`, and
`HOURS_BETWEEN` equals the timestamp difference in seconds divided by 3600
exactly (`HOURS_BETWEEN * 3600` recovers the difference with no rounding). -/
theorem sequencer_ordering (table : List Event) (lr : LinkedRow)
    (h : lr ∈ create_sequential_connections table) :
    lr.cur.time ≤ lr.next.time ∧ 0 ≤ lr.hoursBetween ∧
      lr.hoursBetween * 3600 = (lr.next.time : ℚ) - (lr.cur.time : ℚ) := by
  have hsorted : List.Sorted timeLe (table.insertionSort timeLe) :=
    List.sorted_insertionSort timeLe table
  have hle : timeLe lr.cur lr.next :=
    adjacentPairs_chain (List.Pairwise.chain' hsorted) h
  refine ⟨hle, ?_, ?_⟩
  · have hnum : (0 : ℚ) ≤ ((lr.next.time - lr.cur.time : ℤ) : ℚ) := by
      have : (0 : ℤ) ≤ lr.next.time - lr.cur.time := sub_nonneg.mpr hle
      exact_mod_cast this
    exact div_nonneg hnum (by norm_num)
  · unfold LinkedRow.hoursBetween
    rw [div_mul_cancel₀ _ (by norm_num : (3600 : ℚ) ≠ 0)]
    push_cast
    ring

/-- Claim C3 (witness). -/
theorem sequencer_ordering_witness :
    eventA.time ≤ eventC.time ∧
      0 ≤ LinkedRow.hoursBetween ⟨eventA, eventC⟩ ∧
      LinkedRow.hoursBetween ⟨eventA, eventC⟩ * 3600 =
        (eventC.time : ℚ) - (eventA.time : ℚ) :=
  sequencer_ordering [eventA, eventC] ⟨eventA, eventC⟩ (by decide)

/-- Predicate set of the module-level filters: date range inclusive by
calendar day, magnitude range inclusive, province membership, and optional
category membership (`2_Earthquake_Mapping.py` lines 272-279,
`3_Earthquake_Data_Frame.py` lines 201-215); `categories = none` models the
page without a CATEGORY column (no restriction). -/
structure FilterPred where
  magLo : ℚ
  magHi : ℚ
  provinces : List String
  dateLo : ℤ
  dateHi : ℤ
  categories : Option (List String)
  deriving DecidableEq

/-- Conjunction of the boolean masks applied to one row. -/
def matchesFilter (P : FilterPred) (e : Event) : Bool :=
  decide (P.magLo ≤ e.magnitude) && decide (e.magnitude ≤ P.magHi) &&
    P.provinces.contains e.province &&
    decide (P.dateLo ≤ dateOf e) && decide (dateOf e ≤ P.dateHi) &&
    (match P.categories with
     | none => true
     | some cs => cs.contains e.category)

/-- Boolean-mask row selection `df[mask]`: a new table holding the rows that
satisfy every predicate; the input list is untouched. -/
def filterTable (P : FilterPred) (T : List Event) : List Event :=
  T.filter (matchesFilter P)

/-- Claim C4: the filter is idempotent - applying the same predicate set
twice returns the same table as applying it once (and, being a pure
function on lists, it never mutates its input). -/
theorem filter_idempotent (P : FilterPred) (T : List Event) :
    filterTable P (filterTable P T) = filterTable P T := by
  simp [filterTable, List.filter_filter]

/-- `time_color_mapping` (`2_Earthquake_Mapping.py` lines 224-230): bucket a
time delta in hours into one of three colors. -/
def time_color_mapping (hours : ℚ) : List ℕ :=
  if hours < 2 then [50, 150, 255, 200]
  else if hours < 24 then [50, 180, 50, 200]
  else [200, 100, 50, 200]

/-- Claim C6: the time-delta-to-color mapping is total - every finite
numeric input (negative and out-of-range values included) is assigned
exactly one of the three defined colors, never an undefined color and never
an error. -/
theorem bucket_totality (hours : ℚ) :
    time_color_mapping hours = [50, 150, 255, 200] ∨
      time_color_mapping hours = [50, 180, 50, 200] ∨
      time_color_mapping hours = [200, 100, 50, 200] := by
  unfold time_color_mapping
  split
  · exact Or.inl rfl
  · split
    · exact Or.inr (Or.inl rfl)
    · exact Or.inr (Or.inr rfl)

/-- Second sampling statement of `import_seismic_data`
(`2_Earthquake_Mapping.py` lines 156-157): cap the table at `max_pts` rows
via `df.sample(n=max_pts, random_state=42)`, modelled by a selector `selN`
standing for the library draw with its fixed seed. -/
def sampleCap (selN : ℕ → List Event → List Event) (max_pts : ℕ)
    (df1 : List Event) : List Event :=
  if max_pts < df1.length then selN max_pts df1 else df1

/-- Sampling stage of `import_seismic_data` (`2_Earthquake_Mapping.py`
lines 153-157): percent subsample when `sample_pct < 100`, then cap at
`max_pts`; `selFrac` models `df.sample(frac=sample_pct/100, random_state=42)`. -/
def sampleStage (selFrac selN : ℕ → List Event → List Event)
    (sample_pct max_pts : ℕ) (df : List Event) : List Event :=
  sampleCap selN max_pts (if sample_pct < 100 then selFrac sample_pct df else df)

/-- Every `step`-th element starting at index 0, i.e. the rows at the
`np.arange(0, len, step)` positions. -/
def everyNth (step : ℕ) : List Event → List Event
  | [] => []
  | x :: xs => x :: everyNth step (xs.drop (step - 1))
termination_by l => l.length
decreasing_by simp only [List.length_drop, List.length_cons]; omega

/-- `limit_points` sampling (`3_Earthquake_Data_Frame.py` lines 642-647):
when a province has more than `max_points` rows, keep the rows at stride
`len // max_points` over the time-sorted subset. -/
def limit_points_sample (max_points : ℕ) (province_data : List Event) :
    List Event :=
  if max_points < province_data.length then
    everyNth (province_data.length / max_points) province_data
  else province_data

theorem everyNth_sublist (step : ℕ) :
    ∀ l : List Event, (everyNth step l).Sublist l
  | [] => by rw [everyNth]
  | x :: xs => by
    rw [everyNth]
    exact List.Sublist.cons₂ x
      ((everyNth_sublist step (xs.drop (step - 1))).trans (List.drop_sublist _ _))
termination_by l => l.length
decreasing_by simp only [List.length_drop, List.length_cons]; omega

/-- Claim C5: both samplers return a sublist of their input (so the row
count never grows and no foreign rows appear), and when the target size is
at least the input length (`sample_pct = 100` and `len(df) <= max_pts`,
resp. `len <= max_points`) they return the input unchanged.  `selFrac` and
`selN` are the library draws with fixed seed; the only fact used about them
is that a without-replacement draw returns a sublist.  Determinism is
inherent: the stage is a pure function of (input, parameters, selectors). -/
theorem sampler_guarantee (selFrac selN : ℕ → List Event → List Event)
    (hf : ∀ p d, (selFrac p d).Sublist d)
    (hn : ∀ n d, (selN n d).Sublist d)
    (pct mx : ℕ) (df : List Event) :
    (sampleStage selFrac selN pct mx df).Sublist df ∧
      (sampleStage selFrac selN pct mx df).length ≤ df.length ∧
      (∀ e ∈ sampleStage selFrac selN pct mx df, e ∈ df) ∧
      (100 ≤ pct → df.length ≤ mx → sampleStage selFrac selN pct mx df = df) ∧
      (∀ (mp : ℕ) (d : List Event),
        (limit_points_sample mp d).Sublist d ∧
          (d.length ≤ mp → limit_points_sample mp d = d)) := by
  have h1 : (if pct < 100 then selFrac pct df else df).Sublist df := by
    split
    · exact hf pct df
    · exact List.Sublist.refl df
  have hcap : ∀ d1 : List Event, (sampleCap selN mx d1).Sublist d1 := by
    intro d1
    unfold sampleCap
    split
    · exact hn mx d1
    · exact List.Sublist.refl d1
  have hsub : (sampleStage selFrac selN pct mx df).Sublist df := by
    unfold sampleStage
    exact (hcap _).trans h1
  refine ⟨hsub, hsub.length_le, fun e he => hsub.subset he, ?_, ?_⟩
  · intro hpct hlen
    unfold sampleStage
    rw [if_neg (by omega : ¬ pct < 100)]
    unfold sampleCap
    rw [if_neg (by omega)]
  · intro mp d
    constructor
    · unfold limit_points_sample
      split
      · exact everyNth_sublist _ d
      · exact List.Sublist.refl d
    · intro hd
      unfold limit_points_sample
      rw [if_neg (by omega)]

/-- Claim C5 (witness). -/
theorem sampler_guarantee_witness :
    sampleStage (fun p d => d.take (p * d.length / 100)) (fun n d => d.take n)
        100 5 [eventA, eventB] = [eventA, eventB] :=
  (sampler_guarantee (fun p d => d.take (p * d.length / 100))
    (fun n d => d.take n)
    (fun p d => List.take_sublist _ _) (fun n d => List.take_sublist _ _)
    100 5 [eventA, eventB]).2.2.2.1 (by decide) (by decide)

/-- Running `pct_change` values: each entry is `(cur - prev)/prev * 100`
relative to its predecessor (`yearly_summary["..."].pct_change() * 100`,
`3_Earthquake_Data_Frame.py` lines 522-523). -/
def pctChangeAux (prev : ℚ) : List ℚ → List (Option ℚ)
  | [] => []
  | y :: rest => some ((y - prev) / prev * 100) :: pctChangeAux y rest

/-- `pct_change` over a column: the first row has no predecessor, so pandas
yields NaN there, modelled as `none`; the display lambda maps it to the
string "N/A" (`3_Earthquake_Data_Frame.py` lines 526-531). -/
def pct_change (xs : List ℚ) : List (Option ℚ) :=
  match xs with
  | [] => []
  | x :: rest => none :: pctChangeAux x rest

/-- Year ordering used by `yearly_summary.sort_values("Year")`. -/
def fstLe (a b : ℤ × ℚ) : Prop :=
  a.1 ≤ b.1

instance : DecidableRel fstLe :=
  fun a b => Int.decLe a.1 b.1

instance : IsTotal (ℤ × ℚ) fstLe :=
  ⟨fun a b => Int.le_total a.1 b.1⟩

instance : IsTrans (ℤ × ℚ) fstLe :=
  ⟨fun _ _ _ h h' => le_trans h h'⟩

/-- `yearly_summary` percent-change block (`3_Earthquake_Data_Frame.py`
lines 519-531): sort the per-year rows `(year, total)` by year and attach
the percent change of the total with respect to the previous year. -/
def yearly_summary (ys : List (ℤ × ℚ)) : List ((ℤ × ℚ) × Option ℚ) :=
  (ys.insertionSort fstLe).zip (pct_change ((ys.insertionSort fstLe).map Prod.snd))

/-- Claim C7: with yearly counts [2019:10, 2020:15] the summary assigns
2020 a percent change of +50 and 2019 the explicit not-applicable marker
(`none`, displayed as "N/A"); in general the first row of any non-empty
ordered sequence gets the marker and every later row gets a defined numeric
percent change, never a sentinel 0. -/
theorem percent_change_semantics :
    yearly_summary [(2019, 10), (2020, 15)] =
        [((2019, 10), none), ((2020, 15), some 50)] ∧
      (∀ (x : ℚ) (xs : List ℚ), (pct_change (x :: xs)).head? = some none) ∧
      (∀ (prev : ℚ) (xs : List ℚ) (o : Option ℚ),
        o ∈ pctChangeAux prev xs → o.isSome = true) := by
  refine ⟨by norm_num [yearly_summary, pct_change, pctChangeAux,
    List.insertionSort, List.orderedInsert, fstLe], fun x xs => rfl, ?_⟩
  intro prev xs
  induction xs generalizing prev with
  | nil => intro o ho; simp [pctChangeAux] at ho
  | cons y rest ih =>
    intro o ho
    rw [pctChangeAux] at ho
    rcases List.mem_cons.mp ho with h1 | h2
    · subst h1; rfl
    · exact ih y o h2

/-- Claim C7 (witness). -/
theorem percent_change_semantics_witness :
    (some (50 : ℚ)) ∈ pctChangeAux 10 [15] ∧
      (some (50 : ℚ)).isSome = true :=
  ⟨by norm_num [pctChangeAux],
   percent_change_semantics.2.2 10 [15] (some 50) (by norm_num [pctChangeAux])⟩

/-- Median of a column as pandas computes it: middle element of the sorted
values, or the mean of the two middle elements for even length. -/
def medianOf (xs : List ℚ) : ℚ :=
  if xs.length % 2 = 1 then (xs.insertionSort (· ≤ ·)).getD (xs.length / 2) 0
  else ((xs.insertionSort (· ≤ ·)).getD (xs.length / 2 - 1) 0 +
    (xs.insertionSort (· ≤ ·)).getD (xs.length / 2) 0) / 2

/-- Row of the `monthly_stats` aggregation output
(`3_Earthquake_Data_Frame.py` lines 749-754): count, mean, median, min,
max and std of the metric for one group.  `variance` is the squared std
(kept rational); `none` models the NaN pandas produces for the
`ddof = 1` sample statistic of a single-element group. -/
structure GroupStats where
  count : ℕ
  mean : ℚ
  median : ℚ
  min : ℚ
  max : ℚ
  variance : Option ℚ
  deriving DecidableEq

/-- `agg({metric: ["count", "mean", "median", "min", "max", "std"]})` on
one non-empty group of magnitudes. -/
def aggStats (x : ℚ) (rest : List ℚ) : GroupStats :=
  { count := (x :: rest).length
    mean := (x :: rest).sum / (x :: rest).length
    median := medianOf (x :: rest)
    min := rest.foldl Min.min x
    max := rest.foldl Max.max x
    variance :=
      if 2 ≤ (x :: rest).length then
        some (((x :: rest).map
          (fun v => (v - (x :: rest).sum / (x :: rest).length) ^ 2)).sum /
            (((x :: rest).length - 1 : ℕ) : ℚ))
      else none }

/-- `groupby(["PROVINCE", "YearMonth"]).agg(...)`
(`3_Earthquake_Data_Frame.py` lines 748-751): one `GroupStats` row per
distinct (province, period) key; `yearMonth` abstracts the
`strftime("%Y-%m")` calendar projection. -/
def monthly_stats (yearMonth : Event → ℤ) (rows : List Event) :
    List ((String × ℤ) × GroupStats) :=
  ((rows.map (fun e => (e.province, yearMonth e))).dedup).filterMap
    (fun k =>
      match (rows.filter
          (fun e => decide ((e.province, yearMonth e) = k))).map Event.magnitude with
      | [] => none
      | x :: rest => some (k, aggStats x rest))

/-- Event sharing eventA's province, used to build a three-row group. -/
def eventD : Event :=
  ⟨12, 123, -4, 6, 9000, "Batangas", "AreaA", "TECTONIC"⟩

/-- Claim C8 (counterexample): the std of a single-element group is not 0
and is not omitted - pandas `std` uses `ddof = 1`, so a singleton group
yields NaN (`none`) in a column that is kept and shown unchanged by
`st.dataframe`. -/
theorem aggregator_std_counterexample :
    monthly_stats (fun _ => 0) [eventA] = [(("Batangas", 0), aggStats 5 [])] ∧
      (aggStats 5 []).variance = none ∧
      (aggStats 5 []).variance ≠ some 0 := by
  refine ⟨rfl, rfl, by decide⟩

/-- Claim C8 (amended): a group with magnitudes [4, 5, 6] yields
count = 3, mean = 5, median = 5, min = 4, max = 6 and sample variance 1
(std = 1), both at the `aggStats` level and through the
province-and-period groupby; the std of a single-element group is the NaN
marker `none` (ddof = 1), not 0. -/
theorem aggregator_statistics :
    aggStats 4 [5, 6] = ⟨3, 5, 5, 4, 6, some 1⟩ ∧
      monthly_stats (fun _ => 0) [eventC, eventA, eventD] =
        [(("Batangas", 0), aggStats 4 [5, 6])] ∧
      (∀ x : ℚ, (aggStats x []).variance = none) := by
  refine ⟨?_, rfl, fun x => rfl⟩
  norm_num [aggStats, medianOf, List.insertionSort, List.orderedInsert,
    min_def, max_def]

/-- Raw CSV row before timestamp derivation: the DATE cell text, the
optional TIME cell (`none` models a missing/NaN time) and the magnitude
payload standing for the remaining columns. -/
structure RawRow where
  date : String
  time : Option String
  payload : ℚ
  deriving DecidableEq

/-- `DATETIME` derivation of the loader (`1_Earthquake_Plotting.py` lines
107-114, `3_Earthquake_Data_Frame.py` lines 77-84): when a TIME column is
present, missing times are filled with "00:00:00" and the concatenated
"DATE TIME" string is parsed; without a TIME column the DATE string alone
is parsed.  `parse` models `pd.to_datetime(..., errors="coerce")` composed
with the prior DATE coercion (`none` = NaT). -/
def deriveTimestamp (parse : String → Option ℤ) (hasTimeCol : Bool)
    (r : RawRow) : Option ℤ :=
  if hasTimeCol then parse (r.date ++ " " ++ r.time.getD "00:00:00")
  else parse r.date

/-- Ordering for `sort_values("DATETIME")`. -/
def sndLe (a b : RawRow × ℤ) : Prop :=
  a.2 ≤ b.2

instance : DecidableRel sndLe :=
  fun a b => Int.decLe a.2 b.2

instance : IsTotal (RawRow × ℤ) sndLe :=
  ⟨fun a b => Int.le_total a.2 b.2⟩

instance : IsTrans (RawRow × ℤ) sndLe :=
  ⟨fun _ _ _ h h' => le_trans h h'⟩

/-- Loader row retention (`1_Earthquake_Plotting.py` lines 117-118):
derive `DATETIME` per row, `dropna(subset=["DATETIME"])` (keep exactly the
rows whose timestamp parsed, with the parsed value attached) and
`sort_values("DATETIME")`. -/
def load_earthquake_data (parse : String → Option ℤ) (hasTimeCol : Bool)
    (rows : List RawRow) : List (RawRow × ℤ) :=
  (rows.filterMap
    (fun r => (deriveTimestamp parse hasTimeCol r).map (fun t => (r, t)))
    ).insertionSort sndLe

theorem map_fst_filterMap (g : RawRow → Option ℤ) :
    ∀ rows : List RawRow,
      ((rows.filterMap (fun r => (g r).map (fun t => (r, t)))).map Prod.fst) =
        rows.filter (fun r => (g r).isSome) := by
  intro rows
  induction rows with
  | nil => rfl
  | cons r rest ih =>
    cases hg : g r with
    | none => simp [List.filterMap_cons, List.filter_cons, hg, ih]
    | some t => simp [List.filterMap_cons, List.filter_cons, hg, ih]

/-- Claim C9: every row returned by the loader carries a non-null parsed
timestamp (its `DATETIME` derivation succeeded), the retained underlying
rows are exactly those whose derived timestamp parses (a permutation,
since the loader then sorts by timestamp - nothing is defaulted and
nothing else is dropped), and a missing TIME cell defaults to midnight
"00:00:00" before parsing. -/
theorem loader_timestamps (parse : String → Option ℤ) (hasTimeCol : Bool)
    (rows : List RawRow) :
    (∀ p ∈ load_earthquake_data parse hasTimeCol rows,
      deriveTimestamp parse hasTimeCol p.1 = some p.2) ∧
      ((load_earthquake_data parse hasTimeCol rows).map Prod.fst).Perm
        (rows.filter (fun r => (deriveTimestamp parse hasTimeCol r).isSome)) ∧
      (∀ r : RawRow, r.time = none →
        deriveTimestamp parse true r =
          deriveTimestamp parse true ⟨r.date, some "00:00:00", r.payload⟩) := by
  refine ⟨?_, ?_, ?_⟩
  · intro p hp
    have hp' : p ∈ rows.filterMap
        (fun r => (deriveTimestamp parse hasTimeCol r).map (fun t => (r, t))) :=
      (List.perm_insertionSort sndLe _).mem_iff.mp hp
    rcases List.mem_filterMap.mp hp' with ⟨r, _, hr⟩
    rcases Option.map_eq_some'.mp hr with ⟨t, hd, hrt⟩
    rw [← hrt]
    exact hd
  · rw [load_earthquake_data,
      ← map_fst_filterMap (deriveTimestamp parse hasTimeCol) rows]
    exact (List.perm_insertionSort sndLe _).map Prod.fst
  · intro r hr
    simp [deriveTimestamp, hr]

/-- Concrete parse table and raw row for the loader witness. -/
def parseW : String → Option ℤ :=
  fun s => if s = "2020-01-01 00:00:00" then some 1577836800 else none

def rawW : RawRow :=
  ⟨"2020-01-01", none, 5⟩

/-- Claim C9 (witness). -/
theorem loader_timestamps_witness :
    deriveTimestamp parseW true rawW = some 1577836800 ∧
      deriveTimestamp parseW true rawW =
        deriveTimestamp parseW true ⟨rawW.date, some "00:00:00", rawW.payload⟩ :=
  ⟨(loader_timestamps parseW true [rawW]).1 (rawW, 1577836800) (by decide),
   (loader_timestamps parseW true [rawW]).2.2 rawW rfl⟩

/-- First row attaining the maximum magnitude, starting from accumulator
`b`: the fold behind `idxmax` (ties keep the earlier row, as `idxmax`
returns the first index of the maximum). -/
def pickFirstMax (b : Event) : List Event → Event
  | [] => b
  | y :: ys => pickFirstMax (if b.magnitude < y.magnitude then y else b) ys

/-- `Series.idxmax` resolved to the row it indexes: the first row of the
group attaining the maximal magnitude (`none` only on an empty group, where
pandas would raise instead). -/
def idxmaxRow : List Event → Option Event
  | [] => none
  | x :: xs => some (pickFirstMax x xs)

/-- Epicenter filter
(`4_Earthquake_Heatmaps.py` lines 232-233, and analogously 234-235 with
AREA as the key):
`filtered_df.loc[filtered_df.groupby(["PROVINCE"])["MAGNITUDE"].idxmax()]` -
for each distinct province of the table, keep only the first row attaining
that province's maximum magnitude.  The groupby also orders the keys
alphabetically; here the keys stay in first-appearance order, which only
permutes the output rows. -/
def epicenter_filter (filtered_df : List Event) : List Event :=
  ((filtered_df.map (fun e => e.province)).dedup).filterMap
    (fun p => idxmaxRow (filtered_df.filter (fun e => e.province == p)))

theorem pickFirstMax_mem (b : Event) :
    ∀ l : List Event, pickFirstMax b l ∈ b :: l := by
  intro l
  induction l generalizing b with
  | nil => simp [pickFirstMax]
  | cons y ys ih =>
    rw [pickFirstMax]
    by_cases h : b.magnitude < y.magnitude
    · rw [if_pos h]
      exact List.mem_cons_of_mem _ (ih y)
    · rw [if_neg h]
      rcases List.mem_cons.mp (ih b) with h1 | h2
      · rw [h1]
        exact List.mem_cons_self _ _
      · exact List.mem_cons_of_mem _ (List.mem_cons_of_mem _ h2)

theorem pickFirstMax_le (b : Event) :
    ∀ l : List Event, ∀ z ∈ b :: l, z.magnitude ≤ (pickFirstMax b l).magnitude := by
  intro l
  induction l generalizing b with
  | nil =>
    intro z hz
    rcases List.mem_cons.mp hz with h1 | h2
    · rw [h1, pickFirstMax]
    · simp at h2
  | cons y ys ih =>
    intro z hz
    rw [pickFirstMax]
    have hbb : b.magnitude ≤ (if b.magnitude < y.magnitude then y else b).magnitude := by
      by_cases h : b.magnitude < y.magnitude
      · rw [if_pos h]; exact le_of_lt h
      · rw [if_neg h]
    have hyb : y.magnitude ≤ (if b.magnitude < y.magnitude then y else b).magnitude := by
      by_cases h : b.magnitude < y.magnitude
      · rw [if_pos h]
      · rw [if_neg h]; exact le_of_not_lt h
    have hres := ih (if b.magnitude < y.magnitude then y else b)
      (if b.magnitude < y.magnitude then y else b) (List.mem_cons_self _ _)
    rcases List.mem_cons.mp hz with h1 | h2
    · rw [h1]
      exact hbb.trans hres
    · rcases List.mem_cons.mp h2 with h3 | h4
      · rw [h3]
        exact hyb.trans hres
      · exact ih _ z (List.mem_cons_of_mem _ h4)

theorem idxmaxRow_spec {l : List Event} {r : Event} (h : idxmaxRow l = some r) :
    r ∈ l ∧ ∀ z ∈ l, z.magnitude ≤ r.magnitude := by
  cases l with
  | nil => simp [idxmaxRow] at h
  | cons x xs =>
    have hr : pickFirstMax x xs = r := by
      simpa [idxmaxRow] using h
    rw [← hr]
    exact ⟨pickFirstMax_mem x xs, fun z hz => pickFirstMax_le x xs z hz⟩

theorem filterMapKeys_count (g : String → Option Event) :
    ∀ ks : List String, ks.Nodup →
      (∀ q ∈ ks, ∃ r, g q = some r ∧ r.province = q) →
      ∀ p ∈ ks, ((ks.filterMap g).filter (fun e => e.province == p)).length = 1 := by
  intro ks
  induction ks with
  | nil => intro _ _ p hp; simp at hp
  | cons k kt ih =>
    intro hnd hg p hp
    rcases hg k (List.mem_cons_self _ _) with ⟨r, hgk, hrp⟩
    have hsub : ∀ e ∈ kt.filterMap g, e.province ∈ kt := by
      intro e he
      rcases List.mem_filterMap.mp he with ⟨q, hq, hgq⟩
      rcases hg q (List.mem_cons_of_mem _ hq) with ⟨r', hgq', hr'q⟩
      rw [hgq'] at hgq
      cases hgq
      rw [hr'q]
      exact hq
    rw [List.filterMap_cons, hgk]
    rcases List.mem_cons.mp hp with hpk | hpt
    · subst hpk
      rw [List.filter_cons_of_pos (by simp [hrp])]
      have hnil : (kt.filterMap g).filter (fun e => e.province == p) = [] := by
        rw [List.filter_eq_nil_iff]
        intro e he
        have hpe := hsub e he
        simp only [beq_iff_eq]
        intro hep
        rw [hep] at hpe
        exact (List.nodup_cons.mp hnd).1 hpe
      simp [hnil]
    · have hkp : (r.province == p) = false := by
        simp only [beq_eq_false_iff_ne, ne_eq, hrp]
        intro hkp
        rw [hkp] at hnd
        exact (List.nodup_cons.mp hnd).1 hpt
      rw [List.filter_cons_of_neg (by simp [hkp])]
      exact ih (List.nodup_cons.mp hnd).2
        (fun q hq => hg q (List.mem_cons_of_mem _ hq)) p hpt

/-- Claim C10: with the epicenter filter set to a grouping key (province
here; the AREA branch is line-for-line identical with `area` as the key),
the output has exactly one row per distinct province of the input, that row
belongs to the input (no new rows), and it attains the maximum magnitude of
its province group. -/
theorem epicenter_filter_spec (df : List Event) :
    (∀ p, p ∈ df.map (fun e => e.province) →
      ((epicenter_filter df).filter (fun e => e.province == p)).length = 1) ∧
    (∀ r ∈ epicenter_filter df, r ∈ df ∧
      ∀ s ∈ df, s.province = r.province → s.magnitude ≤ r.magnitude) := by
  have hkeys : ∀ q ∈ (df.map (fun e => e.province)).dedup,
      ∃ r, idxmaxRow (df.filter (fun e => e.province == q)) = some r ∧
        r.province = q := by
    intro q hq
    rw [List.mem_dedup] at hq
    rcases List.mem_map.mp hq with ⟨e, he, rfl⟩
    have hef : e ∈ df.filter (fun x => x.province == e.province) :=
      List.mem_filter.mpr ⟨he, by simp⟩
    cases hl : df.filter (fun x => x.province == e.province) with
    | nil =>
      rw [hl] at hef
      simp at hef
    | cons x xs =>
      refine ⟨pickFirstMax x xs, rfl, ?_⟩
      have hmem : pickFirstMax x xs ∈ df.filter (fun y => y.province == e.province) := by
        rw [hl]
        exact pickFirstMax_mem x xs
      have := (List.mem_filter.mp hmem).2
      simpa using this
  constructor
  · intro p hp
    exact filterMapKeys_count _ _ (List.nodup_dedup _) hkeys p (List.mem_dedup.mpr hp)
  · intro r hr
    rcases List.mem_filterMap.mp hr with ⟨p, _, hgp⟩
    rcases idxmaxRow_spec hgp with ⟨hrf, hmax⟩
    have hrdf := (List.mem_filter.mp hrf).1
    have hrp : r.province = p := by
      have := (List.mem_filter.mp hrf).2
      simpa using this
    refine ⟨hrdf, ?_⟩
    intro s hs hsp
    have hsf : s ∈ df.filter (fun e => e.province == p) :=
      List.mem_filter.mpr ⟨hs, by simp [hsp, hrp]⟩
    exact hmax s hsf

/-- Claim C10 (witness). -/
theorem epicenter_filter_witness :
    ((epicenter_filter [eventA, eventB, eventC]).filter
        (fun e => e.province == "Batangas")).length = 1 ∧
      eventA ∈ [eventA, eventB, eventC] :=
  ⟨(epicenter_filter_spec [eventA, eventB, eventC]).1 "Batangas" (by decide),
   ((epicenter_filter_spec [eventA, eventB, eventC]).2 eventA (by decide)).1⟩
